import Mathlib

/-!
Verification development for the SABRE qubit mapping pass
(lib/Optimizer/Transforms/Mapping.cpp).

The router and driver logic is translated from the source file.  The Device
and Placement helper classes are declared in headers that are not part of the
sources here; they are modelled from the specification, as marked on each of
their declarations.
-/

namespace SabreMapping

/-- Modelled from the spec: the Device header is absent from the sources.  The
spec describes a static connectivity oracle over physical qubits exposing
adjacency, neighbour lists and a precomputed shortest-path distance. -/
structure Device where
  numQubits : Nat
  adj : Nat → Nat → Bool
  dist : Nat → Nat → Nat

def Device.areConnected (d : Device) (p q : Nat) : Bool := d.adj p q

def Device.getNeighbours (d : Device) (p : Nat) : List Nat :=
  (List.range d.numQubits).filter (fun q => d.adj p q)

def Device.getDistance (d : Device) (p q : Nat) : Nat := d.dist p q

/-- Modelled from the spec: the linear-chain (path) topology generator, used
here to build concrete devices for evaluation. -/
def Device.path (n : Nat) : Device :=
  { numQubits := n
    adj := fun p q => decide ((p + 1 = q ∨ q + 1 = p) ∧ p < n ∧ q < n)
    dist := fun p q => max p q - min p q }

/-- Modelled from the spec: the Placement header is absent from the sources.
The spec describes a virtual-to-physical bijection together with its inverse,
whose only mutator exchanges the two virtual qubits assigned to two physical
qubits. -/
structure Placement where
  vToP : Nat → Nat
  pToV : Nat → Nat

def Placement.getPhy (m : Placement) (v : Nat) : Nat := m.vToP v

def Placement.getVr (m : Placement) (p : Nat) : Nat := m.pToV p

/-- Modelled from the spec: swap exchanges the virtual qubits currently
assigned to physical qubits p and q, updating both directions of the map. -/
def Placement.swap (m : Placement) (p q : Nat) : Placement :=
  let v0 := m.pToV p
  let v1 := m.pToV q
  { vToP := fun v => if v = v0 then q else if v = v1 then p else m.vToP v
    pToV := fun x => if x = p then v1 else if x = q then v0 else m.pToV x }

/-- identityPlacement from Mapping.cpp: map every virtual qubit v to the
physical qubit with the same index. -/
def identityPlacement : Placement := { vToP := fun v => v, pToV := fun p => p }

/-- One quake operation of the input block, abstracted to the attributes the
mapper queries: whether the router supports it, whether it is a measurement,
whether it is a sink, whether a measurement carries a register name, and its
quantum operand and result wires (wires are numbered by Nat identifiers). -/
structure OpNode where
  supported : Bool
  isMeasure : Bool
  isSink : Bool
  named : Bool
  operands : List Nat
  results : List Nat
deriving DecidableEq

instance : Inhabited OpNode := ⟨⟨false, false, false, false, [], []⟩⟩

/-- The non-allocation operations of the single block, indexed by position. -/
structure Circuit where
  gates : List OpNode
deriving DecidableEq

def Circuit.node (c : Circuit) (i : Nat) : OpNode := c.gates.getD i default

/-- Each wire is a single-assignment value consumed by at most one operation;
its consumer is the first gate listing it among its quantum operands. -/
def Circuit.consumer (c : Circuit) (w : Nat) : Option Nat :=
  c.gates.findIdx? (fun o => w ∈ o.operands)

/-- The users of the result wires of gate i, one entry per result wire that has
a consumer (a gate consuming two result wires of i therefore appears twice). -/
def Circuit.users (c : Circuit) (i : Nat) : List Nat :=
  (c.node i).results.filterMap c.consumer

/-- VirtualOp from Mapping.cpp: an operation together with the virtual qubits
carried by its operand wires at discovery time. -/
structure VirtOp where
  op : Nat
  qubits : List Nat
deriving DecidableEq

/-- An entry of the rewritten operation stream: either an input operation
rewired to physical qubits, or an inserted swap. -/
inductive LogEntry where
  | gate (op : Nat) (phys : List Nat) (measure : Bool)
  | swapGate (p q : Nat)
deriving DecidableEq

/-- The fixed inputs of one routing run: device, circuit and the static
wire-to-virtual-qubit map computed by the driver. -/
structure Ctx where
  dev : Device
  circ : Circuit
  wireVQ : Nat → Nat

/-- SabreRouter state: layers, decay, physical-to-wire table, visit counters,
measurement phase flag, plus the rewritten-stream log, emitted warnings and
the set of wires consumed by rewired operations. -/
structure RouterState where
  placement : Placement
  frontLayer : List VirtOp
  extendedLayer : List VirtOp
  measureLayer : List VirtOp
  measureSet : List Nat
  involvedPhy : List Nat
  phyDecay : List Rat
  phyToWire : List Nat
  nextWire : Nat
  visited : Nat → Nat
  allowMM : Bool
  numSwapSearches : Nat
  log : List LogEntry
  warnings : List Nat
  consumed : List Nat

/-- Router parameter extendedLayerSize from Mapping.cpp. -/
def extendedLayerSize : Nat := 20

/-- Router parameter extendedLayerWeight from Mapping.cpp. -/
def extendedLayerWeight : Rat := 1/2

/-- Router parameter decayDelta from Mapping.cpp. -/
def decayDelta : Rat := 1/2

/-- Router parameter roundsDecayReset from Mapping.cpp. -/
def roundsDecayReset : Nat := 5

/-- Insertion into the involved-physical-qubit set (insertion order kept,
duplicates dropped). -/
def insertDedup (l : List Nat) (x : Nat) : List Nat := if x ∈ l then l else l ++ [x]

/-- The virtual qubits carried by the operand wires of gate u. -/
def opQubits (ctx : Ctx) (u : Nat) : List Nat :=
  ((ctx.circ.node u).operands).map ctx.wireVQ

/-- One user step of SabreRouter::visitUsers: bump the visit counter, record
the increment when tracking, warn on unsupported operations, and when the
counter reaches the operand count either emplace the operation on the layer
being built or defer a measurement to the measure layer (without duplicates).
The accumulator carries the router state, the layer under construction and the
optional incremented list. -/
def visitOne (ctx : Ctx) (acc : RouterState × List VirtOp × Option (List Nat)) (u : Nat) :
    RouterState × List VirtOp × Option (List Nat) :=
  let s := acc.1
  let layer := acc.2.1
  let inc := acc.2.2
  let newCount := s.visited u + 1
  let s1 : RouterState :=
    { s with visited := fun x => if x = u then newCount else s.visited x }
  let inc1 := inc.map (fun l => l ++ [u])
  let node := ctx.circ.node u
  if node.supported = false then
    ({ s1 with warnings := s1.warnings ++ [u] }, layer, inc1)
  else if newCount = node.operands.length then
    if s1.allowMM || !node.isMeasure then
      (s1, layer ++ [⟨u, opQubits ctx u⟩], inc1)
    else if u ∈ s1.measureSet then
      (s1, layer, inc1)
    else
      ({ s1 with measureLayer := s1.measureLayer ++ [⟨u, opQubits ctx u⟩]
                 measureSet := s1.measureSet ++ [u] }, layer, inc1)
  else
    (s1, layer, inc1)

/-- SabreRouter::visitUsers, folded over the user list. -/
def visitUsers (ctx : Ctx) : List Nat → RouterState × List VirtOp × Option (List Nat) →
    RouterState × List VirtOp × Option (List Nat)
  | [], acc => acc
  | u :: us, acc => visitUsers ctx us (visitOne ctx acc u)

/-- SabreRouter::mapOperation: a two-qubit non-measurement operation is
mappable only when its placed physical qubits are connected; on success the
operation is rewired to the wires currently occupying those physical qubits
and (unless it is a sink) its result wires take over the occupancy. -/
def mapOperation (ctx : Ctx) (s : RouterState) (v : VirtOp) : Option RouterState :=
  let deviceQubits := v.qubits.map s.placement.getPhy
  let node := ctx.circ.node v.op
  if node.isMeasure = false ∧ deviceQubits.length = 2 ∧
      ctx.dev.areConnected (deviceQubits.getD 0 0) (deviceQubits.getD 1 0) = false then
    none
  else
    let newOpWires := deviceQubits.map (fun p => s.phyToWire.getD p 0)
    let s1 : RouterState :=
      { s with consumed := s.consumed ++ newOpWires
               log := s.log ++ [LogEntry.gate v.op deviceQubits node.isMeasure] }
    if node.isSink then some s1
    else
      some { s1 with phyToWire :=
        (node.results.zip deviceQubits).foldl (fun acc wq => acc.set wq.2 wq.1) s1.phyToWire }

/-- The loop body of SabreRouter::mapFrontLayer: retire one candidate; on
failure keep it for the next front layer and record its physical qubits as
involved; on success visit its users into the layer being built. -/
def mapFrontAux (ctx : Ctx) : List VirtOp → RouterState × List VirtOp × Bool →
    RouterState × List VirtOp × Bool
  | [], acc => acc
  | v :: vs, (s, newFront, mapped) =>
    match mapOperation ctx s v with
    | none =>
        mapFrontAux ctx vs
          ({ s with involvedPhy :=
              v.qubits.foldl (fun l vq => insertDedup l (s.placement.getPhy vq)) s.involvedPhy },
           newFront ++ [v], mapped)
    | some s1 =>
        let r := visitUsers ctx (ctx.circ.users v.op) (s1, newFront, none)
        mapFrontAux ctx vs (r.1, r.2.1, true)

/-- SabreRouter::mapFrontLayer: the resulting Bool tells whether at least one
operation was retired. -/
def mapFrontLayer (ctx : Ctx) (s : RouterState) : RouterState × Bool :=
  let r := mapFrontAux ctx s.frontLayer (s, [], false)
  ({ r.1 with frontLayer := r.2.1 }, r.2.2)

/-- Decrement the visit counter once for every recorded increment, in order
(the loop at the end of SabreRouter::selectExtendedLayer). -/
def decAll (f : Nat → Nat) : List Nat → Nat → Nat
  | [], x => f x
  | u :: us, x => decAll (fun y => if y = u then f y - 1 else f y) us x

/-- One wave of the while loop of SabreRouter::selectExtendedLayer: visit the
users of every operation of the temporary layer (tracking increments) and
append the discovered two-qubit non-measurement operations to the extended
layer.  Returns the updated state, the next temporary layer and the updated
incremented list. -/
def waveStep (ctx : Ctx) (s : RouterState) (tmp : List VirtOp) (inc : List Nat) :
    RouterState × List VirtOp × List Nat :=
  let r := tmp.foldl
    (fun acc v => visitUsers ctx (ctx.circ.users v.op) acc) (s, ([] : List VirtOp), some inc)
  let adds := r.2.1.filter (fun v =>
    !(ctx.circ.node v.op).isMeasure && (ctx.circ.node v.op).operands.length = 2)
  ({ r.1 with extendedLayer := r.1.extendedLayer ++ adds }, r.2.1, r.2.2.getD [])

/-- The breadth-first waves of SabreRouter::selectExtendedLayer: while the
temporary layer is nonempty and the extended layer holds fewer operations than
the capacity, run one wave. -/
def selectExtendedLayerAux (ctx : Ctx) : Nat → RouterState → List VirtOp → List Nat →
    RouterState × List Nat
  | 0, s, _, inc => (s, inc)
  | Nat.succ fuel, s, tmp, inc =>
    if tmp = [] ∨ ¬ s.extendedLayer.length < extendedLayerSize then (s, inc)
    else
      let w := waveStep ctx s tmp inc
      selectExtendedLayerAux ctx fuel w.1 w.2.1 w.2.2

/-- SabreRouter::selectExtendedLayer: clear the extended layer, explore
successor waves from the front layer, then undo every visit-counter increment
performed during the exploration. -/
def selectExtendedLayer (ctx : Ctx) (s : RouterState) : RouterState :=
  let r := selectExtendedLayerAux ctx (ctx.circ.gates.length + 2)
    { s with extendedLayer := [] } s.frontLayer []
  { r.1 with visited := decAll r.1.visited r.2 }

/-- The accumulation loop of SabreRouter::computeLayerCost: the sum over the
layer of the placed distance minus one (rational arithmetic stands in for the
double arithmetic of the source). -/
def layerDistSum (ctx : Ctx) (m : Placement) (layer : List VirtOp) : Rat :=
  layer.foldl (fun acc v =>
    acc + ((ctx.dev.getDistance (m.getPhy (v.qubits.getD 0 0))
            (m.getPhy (v.qubits.getD 1 0)) : Rat) - 1)) 0

/-- SabreRouter::computeLayerCost: the layer sum divided by the layer size. -/
def computeLayerCost (ctx : Ctx) (m : Placement) (layer : List VirtOp) : Rat :=
  layerDistSum ctx m layer / (layer.length : Rat)

/-- The cost the loop body of SabreRouter::chooseSwap assigns to one swap
candidate, computed on the tentatively swapped placement: the front-layer cost,
then, when the extended layer is nonempty, divided by the front-layer size and
augmented by the weighted extended-layer cost divided by the extended-layer
size; finally scaled by the larger decay of the two qubits. -/
def candidateCost (ctx : Ctx) (s : RouterState) (pq : Nat × Nat) : Rat :=
  let m1 := s.placement.swap pq.1 pq.2
  let swapCost := computeLayerCost ctx m1 s.frontLayer
  let maxDecay := max (s.phyDecay.getD pq.1 1) (s.phyDecay.getD pq.2 1)
  let swapCost :=
    if s.extendedLayer = [] then swapCost
    else swapCost / (s.frontLayer.length : Rat) +
      extendedLayerWeight * (computeLayerCost ctx m1 s.extendedLayer / (s.extendedLayer.length : Rat))
  maxDecay * swapCost

/-- The cost loop of SabreRouter::chooseSwap: for each candidate the placement
is tentatively swapped, the cost recorded, and the swap applied again to revert
it; the placement is threaded through the whole loop. -/
def costAux (ctx : Ctx) : List (Nat × Nat) → RouterState × List Rat → RouterState × List Rat
  | [], acc => acc
  | pq :: rest, (s, costs) =>
    let c := candidateCost ctx s pq
    costAux ctx rest
      ({ s with placement := (s.placement.swap pq.1 pq.2).swap pq.1 pq.2 }, costs ++ [c])

/-- The minimum-index scan of SabreRouter::chooseSwap: starting from index 0,
a later candidate displaces the current minimum only when its cost is strictly
smaller.  The first argument list holds the costs still to scan, then the cost
of the current minimum, the index of the next candidate and the index of the
current minimum. -/
def minIdxGo : List Rat → Rat → Nat → Nat → Nat
  | [], _, _, best => best
  | c :: cs, bestC, i, best =>
    if c < bestC then minIdxGo cs c (i + 1) i else minIdxGo cs bestC (i + 1) best

/-- Index of the first candidate of minimal cost. -/
def minIdxFold (costs : List Rat) : Nat :=
  match costs with
  | [] => 0
  | c :: cs => minIdxGo cs c 1 0

/-- SabreRouter::chooseSwap: enumerate the device edges incident to the
involved physical qubits, build the extended layer, score every candidate and
return the first candidate of minimal cost.  An empty candidate list (which
the source would index out of bounds) is surfaced as none. -/
def chooseSwap (ctx : Ctx) (s : RouterState) : RouterState × Option (Nat × Nat) :=
  let candidates := s.involvedPhy.flatMap
    (fun p0 => (ctx.dev.getNeighbours p0).map (fun p1 => (p0, p1)))
  let s1 := if extendedLayerSize ≠ 0 then selectExtendedLayer ctx s else s
  let r := costAux ctx candidates (s1, [])
  if candidates = [] then (r.1, none)
  else (r.1, some (candidates.getD (minIdxFold r.2) (0, 0)))

/-- The addSwap closure of SabreRouter::route: swap the placement, emit a swap
operation consuming the wires at the two physical qubits, and let its two
fresh result wires take over the occupancy. -/
def addSwap (s : RouterState) (p q : Nat) : RouterState :=
  { s with placement := s.placement.swap p q
           log := s.log ++ [LogEntry.swapGate p q]
           consumed := s.consumed ++ [s.phyToWire.getD p 0, s.phyToWire.getD q 0]
           phyToWire := (s.phyToWire.set p s.nextWire).set q (s.nextWire + 1)
           nextWire := s.nextWire + 2 }

/-- The stall handling of one iteration of SabreRouter::route: choose a swap,
apply it, clear the involved set and update the decay weights.  When the
candidate set is empty (an out-of-bounds access in the source) the run halts. -/
def routeSwapStep (ctx : Ctx) (s2 : RouterState) : RouterState × Bool :=
  match chooseSwap ctx s2 with
  | (s3, none) => (s3, true)
  | (s3, some pq) =>
    let s4 := addSwap s3 pq.1 pq.2
    let s5 := { s4 with involvedPhy := [] }
    let s6 :=
      if s5.numSwapSearches % roundsDecayReset = 0 then
        { s5 with phyDecay := List.replicate s5.phyDecay.length 1 }
      else
        { s5 with phyDecay :=
            ((s5.phyDecay.set pq.1 (s5.phyDecay.getD pq.1 1 + decayDelta)).set pq.2
              ((s5.phyDecay.set pq.1 (s5.phyDecay.getD pq.1 1 + decayDelta)).getD pq.2 1
                + decayDelta)) }
    (s6, false)

/-- One iteration of the main loop of SabreRouter::route.  The Bool is true
when routing is complete.  When the front layer is empty, the measure layer is
promoted exactly once; a stall triggers a swap search followed by the decay
update. -/
def routeStep (ctx : Ctx) (s : RouterState) : RouterState × Bool :=
  if s.frontLayer = [] then
    if s.allowMM then (s, true)
    else ({ s with allowMM := true, frontLayer := s.measureLayer, measureLayer := [] }, false)
  else
    let r := mapFrontLayer ctx s
    if r.2 then (r.1, false)
    else routeSwapStep ctx { r.1 with numSwapSearches := r.1.numSwapSearches + 1 }

/-- The fuelled main loop of SabreRouter::route. -/
def routeLoop (ctx : Ctx) : Nat → RouterState → RouterState
  | 0, s => s
  | Nat.succ fuel, s =>
    let r := routeStep ctx s
    if r.2 then r.1 else routeLoop ctx fuel r.1

/-- The initial router state (the constructor of SabreRouter). -/
def initState (ctx : Ctx) (m : Placement) (base : Nat) : RouterState :=
  { placement := m
    frontLayer := []
    extendedLayer := []
    measureLayer := []
    measureSet := []
    involvedPhy := []
    phyDecay := List.replicate ctx.dev.numQubits 1
    phyToWire := List.replicate ctx.dev.numQubits 0
    nextWire := base
    visited := fun _ => 0
    allowMM := false
    numSwapSearches := 0
    log := []
    warnings := []
    consumed := [] }

/-- The preamble of SabreRouter::route: every source can be mapped; visit the
users of each source wire into the front layer and let the wire occupy the
physical qubit of its virtual qubit. -/
def routeInit (ctx : Ctx) (sources : List Nat) (m : Placement) (base : Nat) : RouterState :=
  sources.foldl (fun s w =>
    let r := visitUsers ctx ((ctx.circ.consumer w).toList) (s, s.frontLayer, none)
    let s2 := { r.1 with frontLayer := r.2.1 }
    { s2 with phyToWire := s2.phyToWire.set (s2.placement.getPhy (ctx.wireVQ w)) w })
    (initState ctx m base)

/-- SabreRouter::route, run to completion under the given fuel. -/
def routeRun (ctx : Ctx) (sources : List Nat) (m : Placement) (base fuel : Nat) : RouterState :=
  routeLoop ctx fuel (routeInit ctx sources m base)

/-- One operation of the single input block: a qubit allocation producing a
fresh wire, or any other operation. -/
inductive BOp where
  | null (wire : Nat)
  | gate (node : OpNode)
deriving DecidableEq

/-- Fatal pre-flight findings of the block scan. -/
inductive ScanErr where
  | unnamedMeasure
  | tooManyOperands
deriving DecidableEq

/-- Result of the block scan: allocation wires in program order, the non-
allocation operations in program order, and the wire-to-virtual-qubit map. -/
structure ScanOut where
  sources : List Nat
  gates : List OpNode
  wireVQ : Nat → Nat

/-- The per-operation body of the sanity-check loop of Mapper::runOnOperation:
unnamed measurements are fatal; allocations get the next virtual qubit;
supported non-sink operations must use at most two non-measurement qubits and
propagate the virtual qubit of each operand wire to the matching result
wire. -/
def scanAux : List BOp → ScanOut → Except ScanErr ScanOut
  | [], out => Except.ok out
  | BOp.null w :: rest, out =>
    scanAux rest
      { out with
        wireVQ := fun x => if x = w then out.sources.length else out.wireVQ x
        sources := out.sources ++ [w] }
  | BOp.gate node :: rest, out =>
    if node.isMeasure ∧ node.named = false then Except.error ScanErr.unnamedMeasure
    else
      let out1 := { out with gates := out.gates ++ [node] }
      if node.supported then
        if node.isSink then scanAux rest out1
        else if node.isMeasure = false ∧ 2 < node.operands.length then
          Except.error ScanErr.tooManyOperands
        else
          let vq := (node.operands.zip node.results).foldl
            (fun f p => fun x => if x = p.2 then f p.1 else f x) out1.wireVQ
          scanAux rest { out1 with wireVQ := vq }
      else scanAux rest out1

/-- The sanity-check loop of Mapper::runOnOperation over the whole block. -/
def scanBlock (block : List BOp) : Except ScanErr ScanOut :=
  scanAux block { sources := [], gates := [], wireVQ := fun _ => 0 }

/-- The wires mentioned anywhere in one block operation. -/
def bopWires : BOp → List Nat
  | BOp.null w => [w]
  | BOp.gate node => node.operands ++ node.results

/-- A wire identifier strictly larger than every wire of the block, used to
number the ancilla allocation wires and the swap result wires. -/
def freshWireBase (block : List BOp) : Nat :=
  (block.flatMap bopWires).foldl max 0 + 1

/-- The trailing-ancilla removal loop of Mapper::runOnOperation, expressed as
the number of sources kept: scan indices downwards from the end, drop a source
while it is an unused ancilla, and stop at the first used one (originals are
never dropped). -/
def pruneLen (used : Nat → Bool) (numOrig : Nat) : Nat → Nat
  | 0 => 0
  | Nat.succ m => if numOrig ≤ m ∧ used m = false then pruneLen used numOrig m else m + 1

/-- The mapping_v2p attribute of Mapper::runOnOperation: one entry per original
virtual qubit, holding its final physical qubit. -/
def finalizeMap (m : Placement) (numOrig : Nat) : List Nat :=
  (List.range numOrig).map m.getPhy

/-- The outcome of one complete mapping run that reached the router. -/
structure CoreOut where
  numOrig : Nat
  total : Nat
  sources : List Nat
  used : Nat → Bool
  prunedLen : Nat
  attrs : List Nat
  final : RouterState

/-- The mapping pipeline of Mapper::runOnOperation after the block scan:
reject an empty device or a device smaller than the program, synthesize the
ancilla allocations after the last real one, seed the identity placement, run
the router, prune trailing unused ancillas and publish the map.  Device
construction from the option string is handled by the surrounding pass and the
device arrives already built. -/
def driverCore (input : Nat × List BOp × Device × Nat) : Option CoreOut :=
  match scanBlock input.2.1 with
  | Except.error _ => none
  | Except.ok scan =>
    if input.2.2.1.numQubits = 0 then none
    else if input.2.2.1.numQubits < scan.sources.length then none
    else
      let numOrig := scan.sources.length
      let base := freshWireBase input.2.1
      let numAnc := input.2.2.1.numQubits - numOrig
      let ancWires := (List.range numAnc).map (fun i => base + i)
      let wireVQ := (List.range numAnc).foldl
        (fun f i => fun x => if x = base + i then numOrig + i else f x) scan.wireVQ
      let sources := scan.sources ++ ancWires
      let ctx : Ctx := ⟨input.2.2.1, ⟨scan.gates⟩, wireVQ⟩
      let final := routeRun ctx sources identityPlacement (base + numAnc) input.2.2.2
      let used : Nat → Bool := fun i => decide ((sources.getD i 0) ∈ final.consumed)
      some { numOrig := numOrig
             total := sources.length
             sources := sources
             used := used
             prunedLen := pruneLen used numOrig sources.length
             attrs := finalizeMap final.placement numOrig
             final := final }

/-- The externally visible outcome of Mapper::runOnOperation. -/
structure DriverResult where
  multiBlockError : Bool
  failed : Bool
  routed : Bool
  mapAttr : Option (List Nat)
deriving DecidableEq

/-- Mapper::runOnOperation.  The multiple-block check emits an error and
signals pass failure but does not return, so the pass continues with the first
block: when the remaining input is well formed the router still runs and the
mapping_v2p attribute is still published.  Every other fatal check returns
with no routing and no published map. -/
def runOnOperation (numBlocks : Nat) (block : List BOp) (dev : Device) (fuel : Nat) :
    DriverResult :=
  let multiErr := decide (1 < numBlocks)
  match driverCore (numBlocks, block, dev, fuel) with
  | none => { multiBlockError := multiErr, failed := true, routed := false, mapAttr := none }
  | some out =>
    { multiBlockError := multiErr, failed := multiErr, routed := true
      mapAttr := some out.attrs }

/-! ## Basic lemmas -/

theorem append_singleton_ne {α : Type} (l : List α) (x : α) : l ++ [x] ≠ l := by
  intro h
  have h2 := congrArg List.length h
  simp at h2

theorem visitOne_fields (ctx : Ctx) (acc : RouterState × List VirtOp × Option (List Nat))
    (u : Nat) :
    (visitOne ctx acc u).1.placement = acc.1.placement ∧
    (visitOne ctx acc u).1.frontLayer = acc.1.frontLayer ∧
    (visitOne ctx acc u).1.extendedLayer = acc.1.extendedLayer ∧
    (visitOne ctx acc u).1.log = acc.1.log ∧
    (visitOne ctx acc u).1.involvedPhy = acc.1.involvedPhy ∧
    (visitOne ctx acc u).1.phyToWire = acc.1.phyToWire ∧
    (visitOne ctx acc u).1.allowMM = acc.1.allowMM ∧
    (visitOne ctx acc u).1.consumed = acc.1.consumed := by
  unfold visitOne
  dsimp only
  split_ifs <;> simp

theorem visitUsers_fields (ctx : Ctx) (us : List Nat) :
    ∀ acc, (visitUsers ctx us acc).1.placement = acc.1.placement ∧
    (visitUsers ctx us acc).1.frontLayer = acc.1.frontLayer ∧
    (visitUsers ctx us acc).1.extendedLayer = acc.1.extendedLayer ∧
    (visitUsers ctx us acc).1.log = acc.1.log ∧
    (visitUsers ctx us acc).1.involvedPhy = acc.1.involvedPhy ∧
    (visitUsers ctx us acc).1.phyToWire = acc.1.phyToWire ∧
    (visitUsers ctx us acc).1.allowMM = acc.1.allowMM ∧
    (visitUsers ctx us acc).1.consumed = acc.1.consumed := by
  induction us with
  | nil => intro acc; exact ⟨rfl, rfl, rfl, rfl, rfl, rfl, rfl, rfl⟩
  | cons u us ih =>
    intro acc
    obtain ⟨a1, a2, a3, a4, a5, a6, a7, a8⟩ := visitOne_fields ctx acc u
    obtain ⟨b1, b2, b3, b4, b5, b6, b7, b8⟩ := ih (visitOne ctx acc u)
    unfold visitUsers
    exact ⟨b1.trans a1, b2.trans a2, b3.trans a3, b4.trans a4, b5.trans a5,
      b6.trans a6, b7.trans a7, b8.trans a8⟩

/-! ## Claim C6 -/

/-- C6: during frontier exploration, a supported operation is added as a ready
candidate (to the layer under construction, or to the measure layer for a
deferred measurement not already held there) exactly when its visit counter,
incremented once on this encounter, equals the number of its quantum operand
wires. -/
theorem claim6_readiness (ctx : Ctx) (s : RouterState) (layer : List VirtOp)
    (inc : Option (List Nat)) (u : Nat)
    (hsupp : (ctx.circ.node u).supported = true)
    (hnodup : (ctx.circ.node u).isMeasure = false ∨ s.allowMM = true ∨ u ∉ s.measureSet) :
    (visitOne ctx (s, layer, inc) u).1.visited u = s.visited u + 1 ∧
    (((visitOne ctx (s, layer, inc) u).2.1 = layer ++ [⟨u, opQubits ctx u⟩] ∨
      (visitOne ctx (s, layer, inc) u).1.measureLayer =
        s.measureLayer ++ [⟨u, opQubits ctx u⟩]) ↔
      s.visited u + 1 = (ctx.circ.node u).operands.length) := by
  unfold visitOne
  dsimp only
  rw [hsupp]
  split_ifs with h1 h2 h3 <;> simp_all

/-! ## Claim C5 -/

/-- C5: a measurement discovered while the measurement phase has not started is
held back in the measure layer (duplicates excluded) and not added to the layer
being mapped; the first time the front layer empties the measure layer is
promoted and the measurement phase is entered; the next time the front layer
empties while in the measurement phase, routing terminates. -/
theorem claim5_measure_phase (ctx : Ctx) :
    (∀ s layer inc u, s.allowMM = false →
      (ctx.circ.node u).supported = true →
      (ctx.circ.node u).isMeasure = true →
      s.visited u + 1 = (ctx.circ.node u).operands.length →
      (visitOne ctx (s, layer, inc) u).2.1 = layer ∧
      (u ∉ s.measureSet →
        (visitOne ctx (s, layer, inc) u).1.measureLayer =
          s.measureLayer ++ [⟨u, opQubits ctx u⟩] ∧
        (visitOne ctx (s, layer, inc) u).1.measureSet = s.measureSet ++ [u]) ∧
      (u ∈ s.measureSet →
        (visitOne ctx (s, layer, inc) u).1.measureLayer = s.measureLayer ∧
        (visitOne ctx (s, layer, inc) u).1.measureSet = s.measureSet)) ∧
    (∀ s, s.frontLayer = [] → s.allowMM = false →
      routeStep ctx s =
        ({ s with allowMM := true, frontLayer := s.measureLayer, measureLayer := [] },
         false)) ∧
    (∀ s, s.frontLayer = [] → s.allowMM = true → routeStep ctx s = (s, true)) := by
  refine ⟨?_, ?_, ?_⟩
  · intro s layer inc u hmm hsupp hmeas hcount
    unfold visitOne
    dsimp only
    rw [hsupp, hmm, hmeas]
    simp only [hcount]
    split_ifs with h3 <;> simp_all
  · intro s hfront hmm
    unfold routeStep
    rw [hfront, hmm]
    simp
  · intro s hfront hmm
    unfold routeStep
    rw [hfront, hmm]
    simp

/-! ## Claim C10 -/

theorem decAll_congr (l : List Nat) : ∀ f g : Nat → Nat, (∀ x, f x = g x) →
    ∀ x, decAll f l x = decAll g l x := by
  induction l with
  | nil => intro f g h x; exact h x
  | cons u us ih =>
    intro f g h x
    unfold decAll
    exact ih _ _ (fun y => by by_cases hy : y = u <;> simp [hy, h]) x

theorem decAll_bump (l : List Nat) : ∀ f : Nat → Nat, ∀ x,
    decAll (fun y => f y + l.count y) l x = f x := by
  induction l with
  | nil =>
    intro f x
    unfold decAll
    simp
  | cons u us ih =>
    intro f x
    unfold decAll
    have hcongr : ∀ y, (if y = u then (fun z => f z + (u :: us).count z) y - 1
        else (fun z => f z + (u :: us).count z) y) = f y + us.count y := by
      intro y
      by_cases hy : y = u
      · subst hy
        simp [List.count_cons]
      · simp [hy, List.count_cons]
    exact (decAll_congr us _ _ hcongr x).trans (ih f x)

theorem visitOne_track (ctx : Ctx) (s : RouterState) (layer : List VirtOp) (l : List Nat)
    (u : Nat) :
    (visitOne ctx (s, layer, some l) u).2.2 = some (l ++ [u]) ∧
    (∀ x, (visitOne ctx (s, layer, some l) u).1.visited x =
      if x = u then s.visited x + 1 else s.visited x) := by
  unfold visitOne
  dsimp only
  split_ifs <;> refine ⟨rfl, ?_⟩ <;> intro x <;> by_cases hx : x = u <;> simp [hx]

theorem visitUsers_track (ctx : Ctx) (us : List Nat) :
    ∀ s layer l, ∃ d : List Nat,
      (visitUsers ctx us (s, layer, some l)).2.2 = some (l ++ d) ∧
      (∀ x, (visitUsers ctx us (s, layer, some l)).1.visited x = s.visited x + d.count x) ∧
      (visitUsers ctx us (s, layer, some l)).1.frontLayer = s.frontLayer := by
  induction us with
  | nil =>
    intro s layer l
    exact ⟨[], by simp [visitUsers], fun x => by simp [visitUsers], by simp [visitUsers]⟩
  | cons u us ih =>
    intro s layer l
    obtain ⟨hinc, hvis⟩ := visitOne_track ctx s layer l u
    obtain ⟨d, hd1, hd2, hd3⟩ := ih (visitOne ctx (s, layer, some l) u).1
      (visitOne ctx (s, layer, some l) u).2.1 (l ++ [u])
    have hT : visitOne ctx (s, layer, some l) u =
        ((visitOne ctx (s, layer, some l) u).1,
         (visitOne ctx (s, layer, some l) u).2.1, some (l ++ [u])) := by
      rw [← hinc]
    have heq : visitUsers ctx (u :: us) (s, layer, some l) =
        visitUsers ctx us ((visitOne ctx (s, layer, some l) u).1,
          (visitOne ctx (s, layer, some l) u).2.1, some (l ++ [u])) := by
      show visitUsers ctx us (visitOne ctx (s, layer, some l) u) = _
      rw [← hT]
    refine ⟨u :: d, ?_, ?_, ?_⟩
    · rw [heq, hd1]
      simp
    · intro x
      rw [heq, hd2 x, hvis x]
      by_cases hx : x = u <;> simp [hx, List.count_cons] <;> omega
    · rw [heq, hd3]
      exact (visitOne_fields ctx (s, layer, some l) u).2.1

theorem waveFold_track (ctx : Ctx) (tmp : List VirtOp) :
    ∀ s layer l, ∃ d : List Nat,
      (tmp.foldl (fun acc v => visitUsers ctx (ctx.circ.users v.op) acc)
        (s, layer, some l)).2.2 = some (l ++ d) ∧
      (∀ x, (tmp.foldl (fun acc v => visitUsers ctx (ctx.circ.users v.op) acc)
        (s, layer, some l)).1.visited x = s.visited x + d.count x) ∧
      (tmp.foldl (fun acc v => visitUsers ctx (ctx.circ.users v.op) acc)
        (s, layer, some l)).1.frontLayer = s.frontLayer := by
  induction tmp with
  | nil =>
    intro s layer l
    exact ⟨[], by simp, fun x => by simp, by simp⟩
  | cons v vs ih =>
    intro s layer l
    obtain ⟨d1, h1, h2, h3⟩ := visitUsers_track ctx (ctx.circ.users v.op) s layer l
    obtain ⟨d2, g1, g2, g3⟩ := ih (visitUsers ctx (ctx.circ.users v.op) (s, layer, some l)).1
      (visitUsers ctx (ctx.circ.users v.op) (s, layer, some l)).2.1 (l ++ d1)
    have heq : (v :: vs).foldl (fun acc w => visitUsers ctx (ctx.circ.users w.op) acc)
        (s, layer, some l) =
        vs.foldl (fun acc w => visitUsers ctx (ctx.circ.users w.op) acc)
          ((visitUsers ctx (ctx.circ.users v.op) (s, layer, some l)).1,
           (visitUsers ctx (ctx.circ.users v.op) (s, layer, some l)).2.1, some (l ++ d1)) := by
      rw [List.foldl_cons, ← h1]
    refine ⟨d1 ++ d2, ?_, ?_, ?_⟩
    · rw [heq, g1]
      simp
    · intro x
      rw [heq, g2 x, h2 x]
      simp [List.count_append]
      omega
    · rw [heq, g3, h3]

theorem waveStep_track (ctx : Ctx) (s : RouterState) (tmp : List VirtOp) (l : List Nat) :
    ∃ d : List Nat,
      (waveStep ctx s tmp l).2.2 = l ++ d ∧
      (∀ x, (waveStep ctx s tmp l).1.visited x = s.visited x + d.count x) ∧
      (waveStep ctx s tmp l).1.frontLayer = s.frontLayer := by
  obtain ⟨d, h1, h2, h3⟩ := waveFold_track ctx tmp s [] l
  refine ⟨d, ?_, ?_, ?_⟩
  · show (tmp.foldl (fun acc v => visitUsers ctx (ctx.circ.users v.op) acc)
      (s, ([] : List VirtOp), some l)).2.2.getD [] = l ++ d
    rw [h1]
    rfl
  · intro x
    exact h2 x
  · exact h3

theorem selectAux_track (ctx : Ctx) : ∀ fuel s tmp l, ∃ d : List Nat,
    (selectExtendedLayerAux ctx fuel s tmp l).2 = l ++ d ∧
    (∀ x, (selectExtendedLayerAux ctx fuel s tmp l).1.visited x = s.visited x + d.count x) ∧
    (selectExtendedLayerAux ctx fuel s tmp l).1.frontLayer = s.frontLayer := by
  intro fuel
  induction fuel with
  | zero =>
    intro s tmp l
    exact ⟨[], by simp [selectExtendedLayerAux], fun x => by simp [selectExtendedLayerAux],
      by simp [selectExtendedLayerAux]⟩
  | succ fuel ih =>
    intro s tmp l
    unfold selectExtendedLayerAux
    dsimp only
    split_ifs with hcond
    · exact ⟨[], by simp, fun x => by simp, rfl⟩
    · obtain ⟨d1, h1, h2, h3⟩ := waveStep_track ctx s tmp l
      obtain ⟨d2, g1, g2, g3⟩ :=
        ih (waveStep ctx s tmp l).1 (waveStep ctx s tmp l).2.1 (waveStep ctx s tmp l).2.2
      refine ⟨d1 ++ d2, ?_, ?_, ?_⟩
      · rw [g1, h1]
        simp
      · intro x
        rw [g2 x, h2 x]
        simp [List.count_append]
        omega
      · rw [g3, h3]

/-- C10: selectExtendedLayer leaves the readiness state of the router
unchanged: every visit counter ends exactly where it started, because every
increment performed during lookahead exploration is recorded and decremented
back before returning, and the front layer itself is untouched. -/
theorem claim10_frame (ctx : Ctx) (s : RouterState) :
    (∀ u, (selectExtendedLayer ctx s).visited u = s.visited u) ∧
    (selectExtendedLayer ctx s).frontLayer = s.frontLayer := by
  unfold selectExtendedLayer
  dsimp only
  obtain ⟨d, hd1, hd2, hd3⟩ := selectAux_track ctx (ctx.circ.gates.length + 2)
    { s with extendedLayer := [] } s.frontLayer []
  constructor
  · intro u
    rw [hd1]
    have hbump : ∀ x, (selectExtendedLayerAux ctx (ctx.circ.gates.length + 2)
        { s with extendedLayer := [] } s.frontLayer []).1.visited x =
        s.visited x + d.count x := hd2
    have hstep := decAll_congr d _ _ hbump u
    simp only [List.nil_append] at hstep
    exact hstep.trans (decAll_bump d s.visited u)
  · exact hd3

/-! ## Claim C7 -/

theorem waveFold_ext (ctx : Ctx) (tmp : List VirtOp) :
    ∀ acc : RouterState × List VirtOp × Option (List Nat),
      (tmp.foldl (fun acc2 v => visitUsers ctx (ctx.circ.users v.op) acc2) acc).1.extendedLayer
        = acc.1.extendedLayer := by
  induction tmp with
  | nil => intro acc; rfl
  | cons v vs ih =>
    intro acc
    rw [List.foldl_cons, ih]
    exact (visitUsers_fields ctx (ctx.circ.users v.op) acc).2.2.1

theorem waveStep_ext (ctx : Ctx) (s : RouterState) (tmp : List VirtOp) (l : List Nat) :
    (waveStep ctx s tmp l).1.extendedLayer = s.extendedLayer ++
      (waveStep ctx s tmp l).2.1.filter (fun v =>
        !(ctx.circ.node v.op).isMeasure && (ctx.circ.node v.op).operands.length = 2) := by
  unfold waveStep
  dsimp only
  rw [waveFold_ext ctx tmp]

theorem selectAux_extOK (ctx : Ctx) : ∀ fuel s tmp l,
    (∀ v ∈ s.extendedLayer, (ctx.circ.node v.op).isMeasure = false ∧
      (ctx.circ.node v.op).operands.length = 2) →
    ∀ v ∈ (selectExtendedLayerAux ctx fuel s tmp l).1.extendedLayer,
      (ctx.circ.node v.op).isMeasure = false ∧ (ctx.circ.node v.op).operands.length = 2 := by
  intro fuel
  induction fuel with
  | zero =>
    intro s tmp l h
    exact h
  | succ fuel ih =>
    intro s tmp l h
    unfold selectExtendedLayerAux
    dsimp only
    split_ifs with hcond
    · exact h
    · refine ih (waveStep ctx s tmp l).1 (waveStep ctx s tmp l).2.1
        (waveStep ctx s tmp l).2.2 ?_
      intro v hv
      rw [waveStep_ext ctx s tmp l] at hv
      rcases List.mem_append.mp hv with hv1 | hv2
      · exact h v hv1
      · have hp := List.of_mem_filter hv2
        simp only [Bool.and_eq_true, Bool.not_eq_true', decide_eq_true_eq] at hp
        exact ⟨hp.1, hp.2⟩

/-- C7 (amended): after selectExtendedLayer returns, every operation held in
the extended layer is a two-qubit non-measurement operation; the capacity
bound (20 by default) is enforced only between breadth-first waves: a wave
begins only while the layer holds fewer than extendedLayerSize operations, and
once the layer has reached the capacity the loop adds nothing further, but the
final wave may push the layer past the capacity. -/
theorem claim7_extended (ctx : Ctx) :
    (∀ s, ∀ v ∈ (selectExtendedLayer ctx s).extendedLayer,
      (ctx.circ.node v.op).isMeasure = false ∧ (ctx.circ.node v.op).operands.length = 2) ∧
    (∀ fuel s tmp l, extendedLayerSize ≤ s.extendedLayer.length →
      selectExtendedLayerAux ctx fuel s tmp l = (s, l)) := by
  constructor
  · intro s v hv
    unfold selectExtendedLayer at hv
    dsimp only at hv
    refine selectAux_extOK ctx (ctx.circ.gates.length + 2) { s with extendedLayer := [] }
      s.frontLayer [] ?_ v hv
    intro w hw
    simp at hw
  · intro fuel s tmp l h
    match fuel with
    | 0 => rfl
    | Nat.succ fuel =>
      unfold selectExtendedLayerAux
      rw [if_pos (Or.inr (Nat.not_lt.mpr h))]

/-! ## Claim C8 -/

theorem minIdxGo_spec (full : List Rat) : ∀ cs bestC i best (pre : List Rat),
    full = pre ++ cs → pre.length = i → best < i →
    bestC = full.getD best 0 →
    (∀ j, j < i → full.getD best 0 ≤ full.getD j 0) →
    (∀ j, j < best → full.getD best 0 < full.getD j 0) →
    (minIdxGo cs bestC i best < full.length ∧
     (∀ j, j < full.length → full.getD (minIdxGo cs bestC i best) 0 ≤ full.getD j 0) ∧
     (∀ j, j < minIdxGo cs bestC i best →
        full.getD j 0 > full.getD (minIdxGo cs bestC i best) 0)) := by
  intro cs
  induction cs with
  | nil =>
    intro bestC i best pre hfull hlen hbest hbc hmin hfirst
    have hilen : i = full.length := by
      rw [hfull, List.length_append, ← hlen]
      simp
    unfold minIdxGo
    exact ⟨hilen ▸ hbest, fun j hj => hmin j (hilen ▸ hj), fun j hj => hfirst j hj⟩
  | cons c cs ih =>
    intro bestC i best pre hfull hlen hbest hbc hmin hfirst
    have hci : full.getD i 0 = c := by
      rw [hfull, List.getD_eq_getElem?_getD, List.getElem?_append_right (by omega),
        hlen]
      simp
    unfold minIdxGo
    split_ifs with hlt
    · refine ih c (i + 1) i (pre ++ [c]) ?_ ?_ (by omega) ?_ ?_ ?_
      · rw [hfull]
        simp
      · simp [hlen]
      · rw [hci]
      · intro j hj
        rw [hci]
        rcases Nat.lt_or_ge j i with hji | hji
        · have h1 := hmin j hji
          rw [hbc] at hlt
          exact le_of_lt (lt_of_lt_of_le hlt h1)
        · have hji2 : j = i := by omega
          rw [hji2, hci]
      · intro j hj
        rw [hci]
        have h1 := hmin j hj
        rw [hbc] at hlt
        exact lt_of_lt_of_le hlt h1
    · refine ih bestC (i + 1) best (pre ++ [c]) ?_ ?_ (by omega) hbc ?_ hfirst
      · rw [hfull]
        simp
      · simp [hlen]
      · intro j hj
        rcases Nat.lt_or_ge j i with hji | hji
        · exact hmin j hji
        · have hji2 : j = i := by omega
          rw [hji2, hci, ← hbc]
          exact not_lt.mp hlt

theorem minIdxFold_spec (costs : List Rat) (h : costs ≠ []) :
    minIdxFold costs < costs.length ∧
    (∀ j, j < costs.length → costs.getD (minIdxFold costs) 0 ≤ costs.getD j 0) ∧
    (∀ j, j < minIdxFold costs → costs.getD j 0 > costs.getD (minIdxFold costs) 0) := by
  match costs with
  | [] => exact absurd rfl h
  | c :: cs =>
    refine minIdxGo_spec (c :: cs) cs c 1 0 [c] rfl rfl (by omega) (by simp) ?_ ?_
    · intro j hj
      have hj0 : j = 0 := by omega
      rw [hj0]
    · intro j hj
      omega

/-- C8: the embedded router is a deterministic function of (device graph,
initial placement, circuit): equal inputs give an identical rewritten stream
and an identical published virtual-to-physical assignment; moreover the
minimum scan of chooseSwap selects the first candidate of strictly minimal
cost in enumeration order, a later candidate displacing the current minimum
only when its cost is strictly smaller. -/
theorem claim8_determinism :
    (∀ ctx1 ctx2 : Ctx, ∀ sources1 sources2 : List Nat, ∀ m1 m2 : Placement,
      ∀ base1 base2 fuel1 fuel2 : Nat,
      ctx1 = ctx2 → sources1 = sources2 → m1 = m2 → base1 = base2 → fuel1 = fuel2 →
      (routeRun ctx1 sources1 m1 base1 fuel1).log =
        (routeRun ctx2 sources2 m2 base2 fuel2).log ∧
      ∀ v, (routeRun ctx1 sources1 m1 base1 fuel1).placement.getPhy v =
        (routeRun ctx2 sources2 m2 base2 fuel2).placement.getPhy v) ∧
    (∀ costs : List Rat, costs ≠ [] →
      minIdxFold costs < costs.length ∧
      (∀ j, j < costs.length → costs.getD (minIdxFold costs) 0 ≤ costs.getD j 0) ∧
      (∀ j, j < minIdxFold costs → costs.getD j 0 > costs.getD (minIdxFold costs) 0)) := by
  constructor
  · intro ctx1 ctx2 sources1 sources2 m1 m2 base1 base2 fuel1 fuel2 h1 h2 h3 h4 h5
    subst h1; subst h2; subst h3; subst h4; subst h5
    exact ⟨rfl, fun v => rfl⟩
  · exact minIdxFold_spec

/-! ## Claim C4 -/

/-- The swap-candidate cost as the specification sentence states it: the
larger decay of the two qubits times the sum of the front-layer mean and the
extension weight times the extended-layer mean scaled by the extended-layer
size.  This definition follows the words of the spec and is compared against
candidateCost, which is translated from the source. -/
def specSwapCost (ctx : Ctx) (s : RouterState) (pq : Nat × Nat) : Rat :=
  let m1 := s.placement.swap pq.1 pq.2
  max (s.phyDecay.getD pq.1 1) (s.phyDecay.getD pq.2 1) *
    (computeLayerCost ctx m1 s.frontLayer +
      extendedLayerWeight *
        (computeLayerCost ctx m1 s.extendedLayer / (s.extendedLayer.length : Rat)))

/-- The placement invariant: mapping a physical qubit to its virtual qubit and
back is the identity. -/
def Consistent (m : Placement) : Prop := ∀ x, m.vToP (m.pToV x) = x

theorem swap_swap_pToV (m : Placement) (p q : Nat) :
    ∀ x, ((m.swap p q).swap p q).pToV x = m.pToV x := by
  intro x
  simp only [Placement.swap]
  by_cases hp : x = p <;> by_cases hq : x = q <;> by_cases hpq : q = p <;>
    simp_all

theorem swap_swap_vToP (m : Placement) (p q : Nat)
    (hP : m.vToP (m.pToV p) = p) (hQ : m.vToP (m.pToV q) = q) :
    ∀ v, ((m.swap p q).swap p q).vToP v = m.vToP v := by
  intro v
  simp only [Placement.swap]
  by_cases h1 : v = m.pToV p <;> by_cases h2 : v = m.pToV q <;>
    by_cases hpq : q = p <;> simp_all

theorem costAux_placement (ctx : Ctx) : ∀ cands : List (Nat × Nat),
    ∀ s : RouterState, ∀ costs : List Rat, ∀ m0 : Placement, Consistent m0 →
    (∀ x, s.placement.vToP x = m0.vToP x) →
    (∀ x, s.placement.pToV x = m0.pToV x) →
    (∀ x, (costAux ctx cands (s, costs)).1.placement.vToP x = m0.vToP x) ∧
    (∀ x, (costAux ctx cands (s, costs)).1.placement.pToV x = m0.pToV x) := by
  intro cands
  induction cands with
  | nil =>
    intro s costs m0 hcons hv hp
    exact ⟨hv, hp⟩
  | cons pq rest ih =>
    intro s costs m0 hcons hv hp
    have hP : s.placement.vToP (s.placement.pToV pq.1) = pq.1 := by
      rw [hp pq.1, hv (m0.pToV pq.1)]
      exact hcons pq.1
    have hQ : s.placement.vToP (s.placement.pToV pq.2) = pq.2 := by
      rw [hp pq.2, hv (m0.pToV pq.2)]
      exact hcons pq.2
    unfold costAux
    refine ih _ _ m0 hcons ?_ ?_
    · intro x
      exact (swap_swap_vToP s.placement pq.1 pq.2 hP hQ x).trans (hv x)
    · intro x
      exact (swap_swap_pToV s.placement pq.1 pq.2 x).trans (hp x)

/-- C4 (amended): when the extended layer is empty the candidate cost is the
larger decay times the front-layer mean; when the extended layer is nonempty
the code divides the front-layer mean once more by the front-layer size, so
the cost is the larger decay times (front sum over the square of the front
size, plus the extension weight times the extended sum over the square of the
extended size); and the tentative swap performed for each candidate is
reverted, leaving the placement unchanged after the whole cost loop whenever
the placement is consistent. -/
theorem claim4_cost (ctx : Ctx) :
    (∀ s : RouterState, ∀ pq : Nat × Nat, s.extendedLayer = [] →
      candidateCost ctx s pq =
        max (s.phyDecay.getD pq.1 1) (s.phyDecay.getD pq.2 1) *
          (layerDistSum ctx (s.placement.swap pq.1 pq.2) s.frontLayer /
            (s.frontLayer.length : Rat))) ∧
    (∀ s : RouterState, ∀ pq : Nat × Nat, s.extendedLayer ≠ [] →
      candidateCost ctx s pq =
        max (s.phyDecay.getD pq.1 1) (s.phyDecay.getD pq.2 1) *
          (layerDistSum ctx (s.placement.swap pq.1 pq.2) s.frontLayer /
            ((s.frontLayer.length : Rat) * (s.frontLayer.length : Rat)) +
           extendedLayerWeight *
            (layerDistSum ctx (s.placement.swap pq.1 pq.2) s.extendedLayer /
              ((s.extendedLayer.length : Rat) * (s.extendedLayer.length : Rat))))) ∧
    (∀ s : RouterState, ∀ cands : List (Nat × Nat), ∀ costs : List Rat,
      Consistent s.placement →
      (∀ x, (costAux ctx cands (s, costs)).1.placement.vToP x = s.placement.vToP x) ∧
      (∀ x, (costAux ctx cands (s, costs)).1.placement.pToV x = s.placement.pToV x)) := by
  refine ⟨?_, ?_, ?_⟩
  · intro s pq hext
    unfold candidateCost computeLayerCost
    dsimp only
    rw [if_pos hext]
  · intro s pq hext
    unfold candidateCost computeLayerCost
    dsimp only
    rw [if_neg hext, div_div, div_div]
  · intro s cands costs hcons
    exact costAux_placement ctx cands s costs s.placement hcons (fun x => rfl) (fun x => rfl)

/-! ## Invariants of the routing loop (claims C1 and C9) -/

theorem bool_true_of_not_false {b : Bool} (h : ¬ b = false) : b = true := by
  cases b
  · exact absurd rfl h
  · rfl

theorem bool_false_of_not_true {b : Bool} (h : ¬ b = true) : b = false := by
  cases b
  · rfl
  · exact absurd rfl h

/-- Adjacency soundness of one rewritten-stream entry: a two-qubit
non-measurement gate acts on connected physical qubits, and every inserted
swap acts on connected physical qubits. -/
def EntryOK (d : Device) : LogEntry → Prop
  | LogEntry.gate _ phys ms => ms = false → phys.length = 2 →
      d.areConnected (phys.getD 0 0) (phys.getD 1 0) = true
  | LogEntry.swapGate p q => d.areConnected p q = true

/-- Every rewritten input operation of the stream is one the router supports. -/
def GateSupp (ctx : Ctx) : LogEntry → Prop
  | LogEntry.gate i _ _ => (ctx.circ.node i).supported = true
  | LogEntry.swapGate _ _ => True

/-- Every operation of a layer is supported. -/
def LayerSupp (ctx : Ctx) (l : List VirtOp) : Prop :=
  ∀ v ∈ l, (ctx.circ.node v.op).supported = true

/-- The condition under which mapOperation rejects a candidate: a two-qubit
non-measurement operation whose placed physical qubits are not connected. -/
def failGuard (ctx : Ctx) (m : Placement) (v : VirtOp) : Prop :=
  (ctx.circ.node v.op).isMeasure = false ∧ (v.qubits.map m.getPhy).length = 2 ∧
  ctx.dev.areConnected ((v.qubits.map m.getPhy).getD 0 0)
    ((v.qubits.map m.getPhy).getD 1 0) = false

/-- The router invariant: the layers hold only supported operations and the
stream log is adjacency-sound and supported. -/
def Inv (ctx : Ctx) (s : RouterState) : Prop :=
  LayerSupp ctx s.frontLayer ∧ LayerSupp ctx s.measureLayer ∧
  (∀ e ∈ s.log, EntryOK ctx.dev e) ∧ (∀ e ∈ s.log, GateSupp ctx e)

theorem layerSupp_append (ctx : Ctx) (l : List VirtOp) (v : VirtOp)
    (hl : LayerSupp ctx l) (hv : (ctx.circ.node v.op).supported = true) :
    LayerSupp ctx (l ++ [v]) := by
  intro w hw
  rcases List.mem_append.mp hw with h | h
  · exact hl w h
  · rw [List.mem_singleton.mp h]
    exact hv

theorem visitOne_layers (ctx : Ctx) (acc : RouterState × List VirtOp × Option (List Nat))
    (u : Nat) :
    ((visitOne ctx acc u).2.1 = acc.2.1 ∨
      ((visitOne ctx acc u).2.1 = acc.2.1 ++ [⟨u, opQubits ctx u⟩] ∧
        (ctx.circ.node u).supported = true)) ∧
    ((visitOne ctx acc u).1.measureLayer = acc.1.measureLayer ∨
      ((visitOne ctx acc u).1.measureLayer = acc.1.measureLayer ++ [⟨u, opQubits ctx u⟩] ∧
        (ctx.circ.node u).supported = true)) := by
  unfold visitOne
  dsimp only
  split_ifs with h1 h2 h3 h4
  · exact ⟨Or.inl rfl, Or.inl rfl⟩
  · exact ⟨Or.inr ⟨rfl, bool_true_of_not_false h1⟩, Or.inl rfl⟩
  · exact ⟨Or.inl rfl, Or.inl rfl⟩
  · exact ⟨Or.inl rfl, Or.inr ⟨rfl, bool_true_of_not_false h1⟩⟩
  · exact ⟨Or.inl rfl, Or.inl rfl⟩

theorem visitOne_supp (ctx : Ctx) (acc : RouterState × List VirtOp × Option (List Nat))
    (u : Nat) (hl : LayerSupp ctx acc.2.1) (hm : LayerSupp ctx acc.1.measureLayer) :
    LayerSupp ctx (visitOne ctx acc u).2.1 ∧
    LayerSupp ctx (visitOne ctx acc u).1.measureLayer := by
  obtain ⟨hc1, hc2⟩ := visitOne_layers ctx acc u
  constructor
  · rcases hc1 with h | ⟨h, hs⟩
    · rw [h]; exact hl
    · rw [h]; exact layerSupp_append ctx _ _ hl hs
  · rcases hc2 with h | ⟨h, hs⟩
    · rw [h]; exact hm
    · rw [h]; exact layerSupp_append ctx _ _ hm hs

theorem visitUsers_supp (ctx : Ctx) (us : List Nat) :
    ∀ acc, LayerSupp ctx acc.2.1 → LayerSupp ctx acc.1.measureLayer →
    LayerSupp ctx (visitUsers ctx us acc).2.1 ∧
    LayerSupp ctx (visitUsers ctx us acc).1.measureLayer := by
  induction us with
  | nil => intro acc hl hm; exact ⟨hl, hm⟩
  | cons u us ih =>
    intro acc hl hm
    obtain ⟨hl2, hm2⟩ := visitOne_supp ctx acc u hl hm
    exact ih (visitOne ctx acc u) hl2 hm2

theorem visitUsers_layer_mono (ctx : Ctx) (us : List Nat) :
    ∀ acc, ∃ ext, (visitUsers ctx us acc).2.1 = acc.2.1 ++ ext := by
  induction us with
  | nil => intro acc; exact ⟨[], by simp [visitUsers]⟩
  | cons u us ih =>
    intro acc
    obtain ⟨e2, h2⟩ := ih (visitOne ctx acc u)
    rcases (visitOne_layers ctx acc u).1 with h | ⟨h, _⟩
    · refine ⟨e2, ?_⟩
      show (visitUsers ctx us (visitOne ctx acc u)).2.1 = acc.2.1 ++ e2
      rw [h2, h]
    · refine ⟨⟨u, opQubits ctx u⟩ :: e2, ?_⟩
      show (visitUsers ctx us (visitOne ctx acc u)).2.1 = acc.2.1 ++ ⟨u, opQubits ctx u⟩ :: e2
      rw [h2, h]
      simp

theorem mapOperation_none_iff (ctx : Ctx) (s : RouterState) (v : VirtOp) :
    mapOperation ctx s v = none ↔ failGuard ctx s.placement v := by
  unfold mapOperation failGuard
  dsimp only
  split_ifs with h hsink
  · exact iff_of_true rfl h
  · exact iff_of_false (by simp) h
  · exact iff_of_false (by simp) h

theorem mapOperation_some_fields (ctx : Ctx) (s : RouterState) (v : VirtOp)
    (s1 : RouterState) (h : mapOperation ctx s v = some s1) :
    s1.log = s.log ++ [LogEntry.gate v.op (v.qubits.map s.placement.getPhy)
      (ctx.circ.node v.op).isMeasure] ∧
    s1.placement = s.placement ∧ s1.frontLayer = s.frontLayer ∧
    s1.measureLayer = s.measureLayer ∧ s1.allowMM = s.allowMM := by
  unfold mapOperation at h
  dsimp only at h
  split_ifs at h with hf hsink
  · have h2 := Option.some.inj h
    rw [← h2]
    exact ⟨rfl, rfl, rfl, rfl, rfl⟩
  · have h2 := Option.some.inj h
    rw [← h2]
    exact ⟨rfl, rfl, rfl, rfl, rfl⟩

theorem mapFrontAux_spec (ctx : Ctx) : ∀ lst : List VirtOp, ∀ s : RouterState,
    ∀ nf : List VirtOp, ∀ mp : Bool,
    LayerSupp ctx lst → LayerSupp ctx nf → LayerSupp ctx s.measureLayer →
    (∀ e ∈ s.log, EntryOK ctx.dev e) → (∀ e ∈ s.log, GateSupp ctx e) →
    (LayerSupp ctx (mapFrontAux ctx lst (s, nf, mp)).2.1 ∧
     LayerSupp ctx (mapFrontAux ctx lst (s, nf, mp)).1.measureLayer ∧
     (∀ e ∈ (mapFrontAux ctx lst (s, nf, mp)).1.log, EntryOK ctx.dev e) ∧
     (∀ e ∈ (mapFrontAux ctx lst (s, nf, mp)).1.log, GateSupp ctx e) ∧
     (mapFrontAux ctx lst (s, nf, mp)).1.placement = s.placement ∧
     (mapFrontAux ctx lst (s, nf, mp)).1.allowMM = s.allowMM ∧
     (∀ v, v ∈ nf ∨ (v ∈ lst ∧ failGuard ctx s.placement v) →
        v ∈ (mapFrontAux ctx lst (s, nf, mp)).2.1)) := by
  intro lst
  induction lst with
  | nil =>
    intro s nf mp hlst hnf hms hadj hsupp
    refine ⟨hnf, hms, hadj, hsupp, rfl, rfl, ?_⟩
    intro v hv
    rcases hv with hv | ⟨hv, _⟩
    · exact hv
    · exact absurd hv (by simp)
  | cons v vs ih =>
    intro s nf mp hlst hnf hms hadj hsupp
    have hvsupp : (ctx.circ.node v.op).supported = true := hlst v (by simp)
    have hlst2 : LayerSupp ctx vs := fun w hw => hlst w (by simp [hw])
    unfold mapFrontAux
    cases hmo : mapOperation ctx s v with
    | none =>
      have hfail := (mapOperation_none_iff ctx s v).mp hmo
      obtain ⟨c1, c2, c3, c4, c5, c6, c7⟩ := ih
        { s with involvedPhy :=
            v.qubits.foldl (fun l vq => insertDedup l (s.placement.getPhy vq)) s.involvedPhy }
        (nf ++ [v]) mp hlst2 (layerSupp_append ctx nf v hnf hvsupp) hms hadj hsupp
      refine ⟨c1, c2, c3, c4, c5, c6, ?_⟩
      intro w hw
      rcases hw with hw | ⟨hw, hwf⟩
      · exact c7 w (Or.inl (by simp [hw]))
      · rcases List.mem_cons.mp hw with hw2 | hw2
        · exact c7 w (Or.inl (by simp [hw2]))
        · exact c7 w (Or.inr ⟨hw2, hwf⟩)
    | some s1 =>
      obtain ⟨f1, f2, f3, f4, f5⟩ := mapOperation_some_fields ctx s v s1 hmo
      have hentryAdj : EntryOK ctx.dev (LogEntry.gate v.op
          (v.qubits.map s.placement.getPhy) (ctx.circ.node v.op).isMeasure) := by
        intro hms2 hlen
        by_cases hconn : ctx.dev.areConnected
            ((v.qubits.map s.placement.getPhy).getD 0 0)
            ((v.qubits.map s.placement.getPhy).getD 1 0) = true
        · exact hconn
        · exfalso
          have hfail : failGuard ctx s.placement v :=
            ⟨hms2, hlen, bool_false_of_not_true hconn⟩
          rw [← mapOperation_none_iff ctx s v] at hfail
          rw [hmo] at hfail
          exact absurd hfail (by simp)
      have hadj1 : ∀ e ∈ s1.log, EntryOK ctx.dev e := by
        intro e he
        rw [f1] at he
        rcases List.mem_append.mp he with he2 | he2
        · exact hadj e he2
        · rw [List.mem_singleton.mp he2]
          exact hentryAdj
      have hsupp1 : ∀ e ∈ s1.log, GateSupp ctx e := by
        intro e he
        rw [f1] at he
        rcases List.mem_append.mp he with he2 | he2
        · exact hsupp e he2
        · rw [List.mem_singleton.mp he2]
          exact hvsupp
      have hms1 : LayerSupp ctx s1.measureLayer := by
        rw [f4]
        exact hms
      obtain ⟨g1, g2⟩ := visitUsers_supp ctx (ctx.circ.users v.op) (s1, nf, none) hnf hms1
      obtain ⟨k1, k2, k3, k4, k5, k6, k7, k8⟩ :=
        visitUsers_fields ctx (ctx.circ.users v.op) (s1, nf, none)
      obtain ⟨c1, c2, c3, c4, c5, c6, c7⟩ := ih
        (visitUsers ctx (ctx.circ.users v.op) (s1, nf, none)).1
        (visitUsers ctx (ctx.circ.users v.op) (s1, nf, none)).2.1 true hlst2 g1 g2
        (by rw [k4]; exact hadj1) (by rw [k4]; exact hsupp1)
      have hplace : (visitUsers ctx (ctx.circ.users v.op) (s1, nf, none)).1.placement
          = s.placement := by
        rw [k1, f2]
      refine ⟨c1, c2, c3, c4, by rw [c5, hplace], by rw [c6, k7, f5], ?_⟩
      intro w hw
      obtain ⟨ext, hext⟩ := visitUsers_layer_mono ctx (ctx.circ.users v.op) (s1, nf, none)
      rcases hw with hw | ⟨hw, hwf⟩
      · refine c7 w (Or.inl ?_)
        rw [hext]
        exact List.mem_append.mpr (Or.inl hw)
      · rcases List.mem_cons.mp hw with hw2 | hw2
        · exfalso
          rw [hw2] at hwf
          rw [← mapOperation_none_iff ctx s v] at hwf
          rw [hmo] at hwf
          exact absurd hwf (by simp)
        · refine c7 w (Or.inr ⟨hw2, ?_⟩)
          rw [hplace]
          exact hwf

theorem mapFrontLayer_spec (ctx : Ctx) (s : RouterState) (hinv : Inv ctx s) :
    Inv ctx (mapFrontLayer ctx s).1 ∧
    (mapFrontLayer ctx s).1.placement = s.placement ∧
    (mapFrontLayer ctx s).1.allowMM = s.allowMM ∧
    (∀ v, v ∈ s.frontLayer → failGuard ctx s.placement v →
      v ∈ (mapFrontLayer ctx s).1.frontLayer) := by
  obtain ⟨h1, h2, h3, h4⟩ := hinv
  obtain ⟨c1, c2, c3, c4, c5, c6, c7⟩ :=
    mapFrontAux_spec ctx s.frontLayer s [] false h1 (fun v hv => absurd hv (by simp)) h2 h3 h4
  unfold mapFrontLayer
  exact ⟨⟨c1, c2, c3, c4⟩, c5, c6, fun v hv hf => c7 v (Or.inr ⟨hv, hf⟩)⟩

theorem waveFold_supp (ctx : Ctx) (tmp : List VirtOp) :
    ∀ acc : RouterState × List VirtOp × Option (List Nat),
      LayerSupp ctx acc.2.1 → LayerSupp ctx acc.1.measureLayer →
      LayerSupp ctx
        (tmp.foldl (fun a v => visitUsers ctx (ctx.circ.users v.op) a) acc).2.1 ∧
      LayerSupp ctx
        (tmp.foldl (fun a v => visitUsers ctx (ctx.circ.users v.op) a) acc).1.measureLayer := by
  induction tmp with
  | nil => intro acc hl hm; exact ⟨hl, hm⟩
  | cons v vs ih =>
    intro acc hl hm
    obtain ⟨hl2, hm2⟩ := visitUsers_supp ctx (ctx.circ.users v.op) acc hl hm
    exact ih (visitUsers ctx (ctx.circ.users v.op) acc) hl2 hm2

theorem waveFold_pres (ctx : Ctx) (tmp : List VirtOp) :
    ∀ acc : RouterState × List VirtOp × Option (List Nat),
      (tmp.foldl (fun a v => visitUsers ctx (ctx.circ.users v.op) a) acc).1.log = acc.1.log ∧
      (tmp.foldl (fun a v => visitUsers ctx (ctx.circ.users v.op) a) acc).1.placement
        = acc.1.placement := by
  induction tmp with
  | nil => intro acc; exact ⟨rfl, rfl⟩
  | cons v vs ih =>
    intro acc
    obtain ⟨i1, i2⟩ := ih (visitUsers ctx (ctx.circ.users v.op) acc)
    obtain ⟨k1, k2, k3, k4, k5, k6, k7, k8⟩ := visitUsers_fields ctx (ctx.circ.users v.op) acc
    exact ⟨i1.trans k4, i2.trans k1⟩

theorem waveStep_pres (ctx : Ctx) (s : RouterState) (tmp : List VirtOp) (l : List Nat) :
    (waveStep ctx s tmp l).1.log = s.log ∧
    (waveStep ctx s tmp l).1.placement = s.placement ∧
    (LayerSupp ctx s.measureLayer → LayerSupp ctx (waveStep ctx s tmp l).1.measureLayer) := by
  obtain ⟨p1, p2⟩ := waveFold_pres ctx tmp (s, ([] : List VirtOp), some l)
  refine ⟨p1, p2, ?_⟩
  intro hm
  have hsupp := waveFold_supp ctx tmp (s, ([] : List VirtOp), some l)
    (fun v hv => absurd hv (by simp)) hm
  exact hsupp.2

theorem selectAux_pres (ctx : Ctx) : ∀ fuel s tmp l,
    (selectExtendedLayerAux ctx fuel s tmp l).1.log = s.log ∧
    (selectExtendedLayerAux ctx fuel s tmp l).1.placement = s.placement ∧
    (LayerSupp ctx s.measureLayer →
      LayerSupp ctx (selectExtendedLayerAux ctx fuel s tmp l).1.measureLayer) := by
  intro fuel
  induction fuel with
  | zero =>
    intro s tmp l
    exact ⟨rfl, rfl, fun h => h⟩
  | succ fuel ih =>
    intro s tmp l
    unfold selectExtendedLayerAux
    dsimp only
    split_ifs with hcond
    · exact ⟨rfl, rfl, fun h => h⟩
    · obtain ⟨w1, w2, w3⟩ := waveStep_pres ctx s tmp l
      obtain ⟨i1, i2, i3⟩ :=
        ih (waveStep ctx s tmp l).1 (waveStep ctx s tmp l).2.1 (waveStep ctx s tmp l).2.2
      exact ⟨i1.trans w1, i2.trans w2, fun h => i3 (w3 h)⟩

theorem selectExtendedLayer_pres (ctx : Ctx) (s : RouterState) :
    (selectExtendedLayer ctx s).log = s.log ∧
    (selectExtendedLayer ctx s).placement = s.placement ∧
    (selectExtendedLayer ctx s).frontLayer = s.frontLayer ∧
    (LayerSupp ctx s.measureLayer →
      LayerSupp ctx (selectExtendedLayer ctx s).measureLayer) := by
  obtain ⟨p1, p2, p3⟩ := selectAux_pres ctx (ctx.circ.gates.length + 2)
    { s with extendedLayer := [] } s.frontLayer []
  obtain ⟨d, t1, t2, t3⟩ := selectAux_track ctx (ctx.circ.gates.length + 2)
    { s with extendedLayer := [] } s.frontLayer []
  exact ⟨p1, p2, t3, p3⟩

theorem costAux_pres (ctx : Ctx) : ∀ cands : List (Nat × Nat),
    ∀ acc : RouterState × List Rat,
    (costAux ctx cands acc).1.log = acc.1.log ∧
    (costAux ctx cands acc).1.frontLayer = acc.1.frontLayer ∧
    (costAux ctx cands acc).1.measureLayer = acc.1.measureLayer ∧
    (costAux ctx cands acc).2.length = acc.2.length + cands.length := by
  intro cands
  induction cands with
  | nil =>
    intro acc
    exact ⟨rfl, rfl, rfl, by simp [costAux]⟩
  | cons pq rest ih =>
    intro acc
    obtain ⟨s, costs⟩ := acc
    unfold costAux
    dsimp only
    obtain ⟨i1, i2, i3, i4⟩ := ih
      ({ s with placement := (s.placement.swap pq.1 pq.2).swap pq.1 pq.2 },
        costs ++ [candidateCost ctx s pq])
    refine ⟨i1, i2, i3, ?_⟩
    rw [i4]
    simp
    omega

theorem getD_mem_of_lt {α : Type} [Inhabited α] (l : List α) (i : Nat) (d : α)
    (h : i < l.length) : l.getD i d ∈ l := by
  rw [List.getD_eq_getElem?_getD, List.getElem?_eq_getElem h]
  exact List.getElem_mem h

theorem chooseSwap_spec (ctx : Ctx) (s : RouterState) :
    (chooseSwap ctx s).1.log = s.log ∧
    (chooseSwap ctx s).1.frontLayer = s.frontLayer ∧
    (LayerSupp ctx s.measureLayer → LayerSupp ctx (chooseSwap ctx s).1.measureLayer) ∧
    (∀ pq : Nat × Nat, (chooseSwap ctx s).2 = some pq →
      ctx.dev.areConnected pq.1 pq.2 = true) := by
  unfold chooseSwap
  dsimp only
  rw [if_pos (by decide : extendedLayerSize ≠ 0)]
  obtain ⟨e1, e2, e3, e4⟩ := selectExtendedLayer_pres ctx s
  obtain ⟨c1, c2, c3, c4⟩ := costAux_pres ctx
    (s.involvedPhy.flatMap (fun p0 => (ctx.dev.getNeighbours p0).map (fun p1 => (p0, p1))))
    (selectExtendedLayer ctx s, [])
  split_ifs with hcand
  · exact ⟨c1.trans e1, c2.trans e3, fun h => by rw [c3]; exact e4 h, fun pq h => by
      exact absurd h (by simp)⟩
  · refine ⟨c1.trans e1, c2.trans e3, fun h => by rw [c3]; exact e4 h, ?_⟩
    intro pq h
    have hpq := Option.some.inj h
    have hlen : (costAux ctx
        (s.involvedPhy.flatMap (fun p0 => (ctx.dev.getNeighbours p0).map (fun p1 => (p0, p1))))
        (selectExtendedLayer ctx s, [])).2.length =
        (s.involvedPhy.flatMap
          (fun p0 => (ctx.dev.getNeighbours p0).map (fun p1 => (p0, p1)))).length := by
      rw [c4]
      simp
    have hclen : 0 < (s.involvedPhy.flatMap
        (fun p0 => (ctx.dev.getNeighbours p0).map (fun p1 => (p0, p1)))).length :=
      List.length_pos.mpr hcand
    have hne : (costAux ctx
        (s.involvedPhy.flatMap (fun p0 => (ctx.dev.getNeighbours p0).map (fun p1 => (p0, p1))))
        (selectExtendedLayer ctx s, [])).2 ≠ [] := by
      intro hnil
      have h0 : (costAux ctx
          (s.involvedPhy.flatMap (fun p0 => (ctx.dev.getNeighbours p0).map (fun p1 => (p0, p1))))
          (selectExtendedLayer ctx s, [])).2.length = 0 := by
        rw [hnil]
        rfl
      rw [hlen] at h0
      omega
    obtain ⟨m1, m2, m3⟩ := minIdxFold_spec _ hne
    rw [hlen] at m1
    have hmem := getD_mem_of_lt _ _ (0, 0) m1
    rw [hpq] at hmem
    obtain ⟨p0, hp0, hpmem⟩ := List.mem_flatMap.mp hmem
    obtain ⟨p1, hp1, hpeq⟩ := List.mem_map.mp hpmem
    have hq : p1 ∈ ctx.dev.getNeighbours p0 := hp1
    unfold Device.getNeighbours at hq
    have hadj := List.of_mem_filter hq
    rw [← hpeq]
    exact hadj

theorem addSwap_spec (s : RouterState) (p q : Nat) :
    (addSwap s p q).log = s.log ++ [LogEntry.swapGate p q] ∧
    (addSwap s p q).frontLayer = s.frontLayer ∧
    (addSwap s p q).measureLayer = s.measureLayer :=
  ⟨rfl, rfl, rfl⟩

theorem routeSwapStep_inv (ctx : Ctx) (s2 : RouterState) (hinv : Inv ctx s2) :
    Inv ctx (routeSwapStep ctx s2).1 := by
  obtain ⟨i1, i2, i3, i4⟩ := hinv
  obtain ⟨w1, w2, w3, w4⟩ := chooseSwap_spec ctx s2
  unfold routeSwapStep
  rcases hcs : chooseSwap ctx s2 with ⟨s3, opt⟩
  rw [hcs] at w1 w2 w3 w4
  cases opt with
  | none => exact ⟨by rw [w2]; exact i1, w3 i2, by rw [w1]; exact i3, by rw [w1]; exact i4⟩
  | some pq =>
    dsimp only
    have hadjpq := w4 pq rfl
    obtain ⟨a1, a2, a3⟩ := addSwap_spec s3 pq.1 pq.2
    have hlogOK : ∀ e ∈ (addSwap s3 pq.1 pq.2).log, EntryOK ctx.dev e := by
      intro e he
      rw [a1, w1] at he
      rcases List.mem_append.mp he with he2 | he2
      · exact i3 e he2
      · rw [List.mem_singleton.mp he2]
        exact hadjpq
    have hsuppOK : ∀ e ∈ (addSwap s3 pq.1 pq.2).log, GateSupp ctx e := by
      intro e he
      rw [a1, w1] at he
      rcases List.mem_append.mp he with he2 | he2
      · exact i4 e he2
      · rw [List.mem_singleton.mp he2]
        trivial
    split_ifs with hreset
    · exact ⟨by rw [a2, w2]; exact i1, by rw [a3]; exact w3 i2, hlogOK, hsuppOK⟩
    · exact ⟨by rw [a2, w2]; exact i1, by rw [a3]; exact w3 i2, hlogOK, hsuppOK⟩

theorem routeStep_inv (ctx : Ctx) (s : RouterState) (hinv : Inv ctx s) :
    Inv ctx (routeStep ctx s).1 := by
  obtain ⟨⟨i1, i2, i3, i4⟩, hpl, hmm2, hret⟩ := mapFrontLayer_spec ctx s hinv
  obtain ⟨hfr, hme, hadj, hsupp⟩ := hinv
  unfold routeStep
  dsimp only
  split_ifs with hf ha hmapped
  · exact ⟨hfr, hme, hadj, hsupp⟩
  · refine ⟨hme, ?_, hadj, hsupp⟩
    intro v hv
    simp at hv
  · exact ⟨i1, i2, i3, i4⟩
  · exact routeSwapStep_inv ctx _ ⟨i1, i2, i3, i4⟩

theorem routeLoop_inv (ctx : Ctx) : ∀ fuel s, Inv ctx s → Inv ctx (routeLoop ctx fuel s) := by
  intro fuel
  induction fuel with
  | zero => intro s h; exact h
  | succ fuel ih =>
    intro s h
    unfold routeLoop
    dsimp only
    split_ifs with hdone
    · exact routeStep_inv ctx s h
    · exact ih (routeStep ctx s).1 (routeStep_inv ctx s h)

theorem routeInit_inv (ctx : Ctx) (sources : List Nat) (m : Placement) (base : Nat) :
    Inv ctx (routeInit ctx sources m base) := by
  unfold routeInit
  have hgen : ∀ ws : List Nat, ∀ s : RouterState, Inv ctx s →
      Inv ctx (ws.foldl (fun s2 w =>
        let r := visitUsers ctx ((ctx.circ.consumer w).toList) (s2, s2.frontLayer, none)
        let s3 := { r.1 with frontLayer := r.2.1 }
        { s3 with phyToWire := s3.phyToWire.set (s3.placement.getPhy (ctx.wireVQ w)) w }) s) := by
    intro ws
    induction ws with
    | nil => intro s h; exact h
    | cons w ws ih =>
      intro s h
      obtain ⟨h1, h2, h3, h4⟩ := h
      rw [List.foldl_cons]
      refine ih _ ?_
      obtain ⟨g1, g2⟩ :=
        visitUsers_supp ctx ((ctx.circ.consumer w).toList) (s, s.frontLayer, none) h1 h2
      obtain ⟨k1, k2, k3, k4, k5, k6, k7, k8⟩ :=
        visitUsers_fields ctx ((ctx.circ.consumer w).toList) (s, s.frontLayer, none)
      exact ⟨g1, g2, by rw [k4]; exact h3, by rw [k4]; exact h4⟩
  refine hgen sources (initState ctx m base) ?_
  refine ⟨?_, ?_, ?_, ?_⟩ <;> intro x hx <;> simp [initState] at hx

/-! ## Claim C1 -/

/-- C1: every two-qubit non-measurement entry of the rewritten stream of a
routing run, inserted swaps included, acts on physical qubits that are
connected in the device graph; mapOperation succeeds exactly when the
operation is a measurement, does not use two qubits, or uses two connected
physical qubits; and an operation that mapOperation rejects stays in the next
front layer. -/
theorem claim1_adjacency :
    (∀ ctx : Ctx, ∀ sources : List Nat, ∀ m : Placement, ∀ base fuel : Nat,
      ∀ e ∈ (routeRun ctx sources m base fuel).log,
        (∀ i phys, e = LogEntry.gate i phys false → phys.length = 2 →
          ctx.dev.areConnected (phys.getD 0 0) (phys.getD 1 0) = true) ∧
        (∀ p q, e = LogEntry.swapGate p q → ctx.dev.areConnected p q = true)) ∧
    (∀ ctx : Ctx, ∀ s : RouterState, ∀ v : VirtOp,
      ((mapOperation ctx s v).isSome = true ↔
        ((ctx.circ.node v.op).isMeasure = true ∨
         (v.qubits.map s.placement.getPhy).length ≠ 2 ∨
         ctx.dev.areConnected ((v.qubits.map s.placement.getPhy).getD 0 0)
           ((v.qubits.map s.placement.getPhy).getD 1 0) = true))) ∧
    (∀ ctx : Ctx, ∀ s : RouterState, ∀ v : VirtOp, Inv ctx s → v ∈ s.frontLayer →
      mapOperation ctx s v = none → v ∈ (mapFrontLayer ctx s).1.frontLayer) := by
  refine ⟨?_, ?_, ?_⟩
  · intro ctx sources m base fuel e he
    have hinv := routeLoop_inv ctx fuel (routeInit ctx sources m base)
      (routeInit_inv ctx sources m base)
    have hok := hinv.2.2.1 e he
    constructor
    · intro i phys he2
      subst he2
      exact hok rfl
    · intro p q he2
      subst he2
      exact hok
  · intro ctx s v
    rw [Option.isSome_iff_ne_none, Ne, mapOperation_none_iff]
    unfold failGuard
    constructor
    · intro h
      by_cases hm : (ctx.circ.node v.op).isMeasure = true
      · exact Or.inl hm
      · by_cases hl : (v.qubits.map s.placement.getPhy).length = 2
        · refine Or.inr (Or.inr ?_)
          by_cases hc : ctx.dev.areConnected ((v.qubits.map s.placement.getPhy).getD 0 0)
              ((v.qubits.map s.placement.getPhy).getD 1 0) = true
          · exact hc
          · exact absurd ⟨bool_false_of_not_true hm, hl, bool_false_of_not_true hc⟩ h
        · exact Or.inr (Or.inl hl)
    · intro h hguard
      rcases h with h | h | h
      · rw [hguard.1] at h
        exact absurd h (by simp)
      · exact h hguard.2.1
      · rw [hguard.2.2] at h
        exact absurd h (by simp)
  · intro ctx s v hinv hv hnone
    exact (mapFrontLayer_spec ctx s hinv).2.2.2 v hv ((mapOperation_none_iff ctx s v).mp hnone)

/-! ## Claim C9 -/

/-- C9 (amended): an operation kind the router does not recognize is handled
without aborting: the visit step records a diagnostic for it, adds it to no
layer and imposes no adjacency constraint, its visit counter is still
maintained, and every operation rewritten by a routing run is a supported one,
so unsupported operations are passed through unmapped.  The original claim
that operations depending on an unsupported operation are still reached and
mapped is refuted separately by a concrete run. -/
theorem claim9_unsupported :
    (∀ ctx : Ctx, ∀ acc : RouterState × List VirtOp × Option (List Nat), ∀ u : Nat,
      (ctx.circ.node u).supported = false →
      (visitOne ctx acc u).1.warnings = acc.1.warnings ++ [u] ∧
      (visitOne ctx acc u).2.1 = acc.2.1 ∧
      (visitOne ctx acc u).1.measureLayer = acc.1.measureLayer ∧
      (visitOne ctx acc u).1.visited u = acc.1.visited u + 1) ∧
    (∀ ctx : Ctx, ∀ sources : List Nat, ∀ m : Placement, ∀ base fuel : Nat,
      ∀ e ∈ (routeRun ctx sources m base fuel).log,
      ∀ i phys ms, e = LogEntry.gate i phys ms → (ctx.circ.node i).supported = true) := by
  constructor
  · intro ctx acc u hsupp
    unfold visitOne
    dsimp only
    rw [hsupp]
    simp
  · intro ctx sources m base fuel e he i phys ms he2
    have hinv := routeLoop_inv ctx fuel (routeInit ctx sources m base)
      (routeInit_inv ctx sources m base)
    have hok := hinv.2.2.2 e he
    subst he2
    exact hok

/-! ## Claim C2 -/

theorem pruneLen_spec (used : Nat → Bool) (numOrig : Nat) (h1 : 1 ≤ numOrig) :
    ∀ m, numOrig ≤ m →
      (numOrig ≤ pruneLen used numOrig m ∧ pruneLen used numOrig m ≤ m ∧
       (∀ i, pruneLen used numOrig m ≤ i → i < m → used i = false) ∧
       (pruneLen used numOrig m = numOrig ∨ used (pruneLen used numOrig m - 1) = true)) := by
  intro m
  induction m with
  | zero =>
    intro h
    exact absurd h (by omega)
  | succ m ih =>
    intro h
    unfold pruneLen
    split_ifs with hcond
    · obtain ⟨c1, c2, c3, c4⟩ := ih hcond.1
      refine ⟨c1, by omega, ?_, c4⟩
      intro i hi1 hi2
      by_cases him : i = m
      · rw [him]
        exact hcond.2
      · exact c3 i hi1 (by omega)
    · refine ⟨h, le_refl _, ?_, ?_⟩
      · intro i hi1 hi2
        exact absurd hi2 (by omega)
      · by_cases hno : numOrig ≤ m
        · right
          have hu : used m = true := by
            by_cases hu2 : used m = true
            · exact hu2
            · exact absurd ⟨hno, bool_false_of_not_true hu2⟩ hcond
          simpa using hu
        · left
          omega

theorem finalizeMap_getD (m : Placement) (n v : Nat) (hv : v < n) :
    (finalizeMap m n).getD v 0 = m.getPhy v := by
  unfold finalizeMap
  rw [List.getD_eq_getElem?_getD]
  simp [List.getElem?_range, hv]

/-- C2: whenever a mapping run completes, the published map has exactly one
entry per original (non-ancilla) virtual qubit, entry v holding the physical
qubit that the final placement assigns to virtual qubit v; the map is indexed
only by the original qubits, never by the synthesized ancillas; and the
trailing-ancilla removal keeps at least the originals, drops only unused
sources and stops at the first still-used one (scanning from the end). -/
theorem claim2_publishedMap : ∀ input : Nat × List BOp × Device × Nat,
    ∀ out : CoreOut, driverCore input = some out →
    (out.attrs.length = out.numOrig ∧
     (∀ v, v < out.numOrig → out.attrs.getD v 0 = out.final.placement.getPhy v) ∧
     out.numOrig ≤ out.total ∧
     (1 ≤ out.numOrig →
       (out.numOrig ≤ out.prunedLen ∧ out.prunedLen ≤ out.total ∧
        (∀ i, out.prunedLen ≤ i → i < out.total → out.used i = false) ∧
        (out.prunedLen = out.numOrig ∨ out.used (out.prunedLen - 1) = true)))) := by
  intro input out h
  unfold driverCore at h
  cases hscan : scanBlock input.2.1 with
  | error e =>
    rw [hscan] at h
    exact absurd h (by simp)
  | ok scan =>
    rw [hscan] at h
    dsimp only at h
    split_ifs at h with h0 h1
    have h2 := Option.some.inj h
    rw [← h2]
    dsimp only
    have htotal : scan.sources.length ≤
        (scan.sources ++ (List.range (input.2.2.1.numQubits - scan.sources.length)).map
          (fun i => freshWireBase input.2.1 + i)).length := by
      simp
    refine ⟨by simp [finalizeMap], ?_, htotal, ?_⟩
    · intro v hv
      exact finalizeMap_getD _ _ v hv
    · intro hn
      exact pruneLen_spec _ scan.sources.length hn _ htotal

/-! ## Claim C3 -/

/-- A minimal single-allocation block used for concrete driver runs. -/
def exBlock1 : List BOp := [BOp.null 0]

/-- C3 (code bug): on a function with two basic blocks the driver emits the
fatal multiple-block error and signals pass failure, but the missing return
after signalPassFailure lets the pass continue: the first block is still
routed and the mapping_v2p attribute is still published, against the claim
that no routing is attempted and no map is produced. -/
theorem claim3_multiblock :
    (runOnOperation 2 exBlock1 (Device.path 1) 5).multiBlockError = true ∧
    (runOnOperation 2 exBlock1 (Device.path 1) 5).failed = true ∧
    (runOnOperation 2 exBlock1 (Device.path 1) 5).routed = true ∧
    (runOnOperation 2 exBlock1 (Device.path 1) 5).mapAttr = some [0] := by
  decide

/-! ## Concrete inputs for counterexamples and witnesses -/

/-- A two-qubit gate on wires 0 and 1 producing wires 2 and 3. -/
def exGate : OpNode := ⟨true, false, false, false, [0, 1], [2, 3]⟩

/-- Sink (deallocation) of wire 2. -/
def exSink2 : OpNode := ⟨true, false, true, false, [2], []⟩

/-- Sink (deallocation) of wire 3. -/
def exSink3 : OpNode := ⟨true, false, true, false, [3], []⟩

/-- Two qubits on a path of two, one gate on virtual (0, 1), then sinks. -/
def exCtx : Ctx := ⟨Device.path 2, ⟨[exGate, exSink2, exSink3]⟩,
  fun w => if w = 0 then 0 else if w = 1 then 1 else if w = 2 then 0 else 1⟩

/-- The block form of the exCtx circuit, for driver runs. -/
def exBlock2 : List BOp :=
  [BOp.null 0, BOp.null 1, BOp.gate exGate, BOp.gate exSink2, BOp.gate exSink3]

/-- The initial router state of the exCtx run. -/
def exInit : RouterState := initState exCtx identityPlacement 10

/-- A second two-qubit gate consuming the results of exGate. -/
def exGateB : OpNode := ⟨true, false, false, false, [2, 3], [4, 5]⟩

/-- A chain of two two-qubit gates, so that lookahead finds a successor. -/
def exCtxB : Ctx := ⟨Device.path 2, ⟨[exGate, exGateB]⟩,
  fun w => if w = 1 then 1 else if w = 3 then 1 else if w = 5 then 1 else 0⟩

/-- A state of the exCtxB run with the first gate in the front layer. -/
def exStateB : RouterState :=
  { initState exCtxB identityPlacement 10 with frontLayer := [⟨0, [0, 1]⟩] }

/-- A state whose extended layer already holds the capacity bound. -/
def exBigExt : RouterState :=
  { initState exCtx identityPlacement 10 with
      extendedLayer := List.replicate 20 ⟨0, [0, 1]⟩ }

/-- A named single-qubit measurement of wire 0. -/
def mMeas : OpNode := ⟨true, true, false, true, [0], [4]⟩

/-- One qubit, one measurement. -/
def mCtx : Ctx := ⟨Device.path 1, ⟨[mMeas]⟩, fun _ => 0⟩

/-- The initial router state of the mCtx run. -/
def mInit : RouterState := initState mCtx identityPlacement 10

/-- An exCtx state already in the measurement phase with empty front layer. -/
def c5state : RouterState := { initState exCtx identityPlacement 10 with allowMM := true }

/-- An unsupported operation consuming wire 0 and producing wire 1. -/
def uNode : OpNode := ⟨false, false, false, false, [0], [1]⟩

/-- A supported single-qubit gate depending on the unsupported operation. -/
def gNode : OpNode := ⟨true, false, false, false, [1], [2]⟩

/-- One qubit whose wire feeds an unsupported operation feeding a gate. -/
def uCtx : Ctx := ⟨Device.path 1, ⟨[uNode, gNode]⟩, fun _ => 0⟩

/-- The initial router state of the uCtx run. -/
def uInit : RouterState := initState uCtx identityPlacement 10

/-- Gate i of the lookahead-overflow circuit, on virtual qubits (i, i+21). -/
def g7 (i : Nat) : OpNode :=
  ⟨true, false, false, false, [i, i + 21], [100 + 2 * i, 101 + 2 * i]⟩

/-- The successor gate of g7 i, on the same pair of qubits. -/
def h7 (i : Nat) : OpNode :=
  ⟨true, false, false, false, [100 + 2 * i, 101 + 2 * i], [200 + 2 * i, 201 + 2 * i]⟩

/-- 21 stalled gates each followed by a two-qubit successor. -/
def c7gates : List OpNode := (List.range 21).map g7 ++ (List.range 21).map h7

/-- The wire-to-virtual-qubit map of the lookahead-overflow circuit. -/
def vq7 : Nat → Nat := fun w =>
  if w < 42 then w
  else if w < 142 then (if w % 2 = 0 then (w - 100) / 2 else (w - 101) / 2 + 21)
  else 0

/-- 42 qubits on a path; every front gate spans distance 21. -/
def ctx7 : Ctx := ⟨Device.path 42, ⟨c7gates⟩, vq7⟩

/-- The state right after the first failed front-layer mapping attempt of the
ctx7 run: the point at which chooseSwap builds the extended layer. -/
def stall7 : RouterState :=
  (mapFrontLayer ctx7 (routeInit ctx7 (List.range 42) identityPlacement 300)).1

/-- A six-qubit path with a stalled front layer of two gates spanning
distances 3 and 4 and one extended-layer gate, for the cost comparison. -/
def c4ctx : Ctx := ⟨Device.path 6, ⟨[]⟩, fun w => w⟩

/-- The stalled configuration used by the cost counterexample. -/
def c4state : RouterState :=
  { initState c4ctx identityPlacement 0 with
      frontLayer := [⟨0, [0, 4]⟩, ⟨1, [2, 5]⟩]
      extendedLayer := [⟨2, [0, 2]⟩] }

/-! ## Counterexamples -/

set_option maxRecDepth 1000000 in
/-- C7 counterexample: at the stalled state of the ctx7 run (exactly where
chooseSwap calls selectExtendedLayer), the lookahead wave appends all 21 ready
two-qubit successors at once, so the extended layer exceeds the capacity bound
of 20. -/
theorem claim7_counterexample :
    (selectExtendedLayer ctx7 stall7).extendedLayer.length = 21 ∧
    extendedLayerSize < 21 := by
  constructor
  · decide
  · decide

/-- C9 counterexample: a full routing run on a circuit whose only source wire
feeds an unsupported operation, which feeds a supported gate: the diagnostic
is recorded, but nothing at all is rewritten — the supported downstream gate
is never reached, so it is not mapped. -/
theorem claim9_counterexample :
    (routeRun uCtx [0] identityPlacement 10 10).log = [] ∧
    (routeRun uCtx [0] identityPlacement 10 10).warnings = [0] ∧
    (uCtx.circ.node 1).supported = true := by
  decide

/-- C4 counterexample: at the c4state stall the candidate cost the code
computes is 1, while the formula of the specification sentence (front-layer
mean plus weighted scaled extended mean, times the decay factor) gives 2. -/
theorem claim4_cost_counterexample :
    candidateCost c4ctx c4state (0, 1) = 1 ∧ specSwapCost c4ctx c4state (0, 1) = 2 ∧
    candidateCost c4ctx c4state (0, 1) ≠ specSwapCost c4ctx c4state (0, 1) := by
  have h1 : candidateCost c4ctx c4state (0, 1) = 1 := by
    norm_num [candidateCost, computeLayerCost, layerDistSum, extendedLayerWeight, Device.path,
      Device.getDistance, Placement.swap, Placement.getPhy, initState, c4ctx, c4state,
      identityPlacement, List.getD, List.foldl]
  have h2 : specSwapCost c4ctx c4state (0, 1) = 2 := by
    norm_num [specSwapCost, computeLayerCost, layerDistSum, extendedLayerWeight, Device.path,
      Device.getDistance, Placement.swap, Placement.getPhy, initState, c4ctx, c4state,
      identityPlacement, List.getD, List.foldl]
  refine ⟨h1, h2, ?_⟩
  rw [h1, h2]
  norm_num

/-! ## Witnesses -/

theorem claim1_adjacency_witness :
    exCtx.dev.areConnected (([0, 1] : List Nat).getD 0 0) (([0, 1] : List Nat).getD 1 0)
      = true :=
  (claim1_adjacency.1 exCtx [0, 1] identityPlacement 10 10
    (LogEntry.gate 0 [0, 1] false) (by decide)).1 0 [0, 1] rfl (by decide)

theorem claim2_publishedMap_witness :
    ((driverCore (1, exBlock2, Device.path 2, 10)).get (by decide)).attrs.length =
    ((driverCore (1, exBlock2, Device.path 2, 10)).get (by decide)).numOrig :=
  (claim2_publishedMap (1, exBlock2, Device.path 2, 10) _ (Option.some_get (by decide)).symm).1

theorem claim4_cost_witness :
    (costAux c4ctx [(0, 1)] (c4state, [])).1.placement.vToP 0 = c4state.placement.vToP 0 :=
  ((claim4_cost c4ctx).2.2 c4state [(0, 1)] [] (fun y => rfl)).1 0

theorem claim5_measure_phase_witness :
    (visitOne mCtx (mInit, [], none) 0).2.1 = ([] : List VirtOp) ∧
    routeStep exCtx c5state = (c5state, true) :=
  ⟨((claim5_measure_phase mCtx).1 mInit [] none 0 rfl rfl rfl rfl).1,
   (claim5_measure_phase exCtx).2.2 c5state rfl rfl⟩

theorem claim6_readiness_witness :
    (visitOne exCtx (exInit, [], none) 0).1.visited 0 = exInit.visited 0 + 1 :=
  (claim6_readiness exCtx exInit [] none 0 rfl (Or.inl rfl)).1

theorem claim7_extended_witness :
    ((exCtxB.circ.node 1).isMeasure = false ∧ (exCtxB.circ.node 1).operands.length = 2) ∧
    selectExtendedLayerAux exCtx 5 exBigExt [⟨0, [0, 1]⟩] [] = (exBigExt, []) :=
  ⟨(claim7_extended exCtxB).1 exStateB ⟨1, opQubits exCtxB 1⟩ (by decide),
   (claim7_extended exCtx).2 5 exBigExt [⟨0, [0, 1]⟩] [] (by decide)⟩

theorem claim8_determinism_witness :
    (routeRun exCtx [0, 1] identityPlacement 10 10).log =
      (routeRun exCtx [0, 1] identityPlacement 10 10).log ∧
    minIdxFold [(3 : Rat), 1, 2, 1] < 4 :=
  ⟨(claim8_determinism.1 exCtx exCtx [0, 1] [0, 1] identityPlacement identityPlacement
      10 10 10 10 rfl rfl rfl rfl rfl).1,
   (claim8_determinism.2 [3, 1, 2, 1] (by decide)).1⟩

theorem claim9_unsupported_witness :
    (visitOne uCtx (uInit, [], none) 0).1.warnings = uInit.warnings ++ [0] :=
  (claim9_unsupported.1 uCtx (uInit, [], none) 0 rfl).1

end SabreMapping
